import Mathlib

/-!
# Aegisub font lookup: `GdiFontFileLister::GetFontPaths` and `GetFaceNames`

A shallow embedding of `src/font_file_lister_gdi.cpp` and `src/font.cpp`.

The operating system is an oracle: a `Platform` value holds the answer of every
Win32 / DirectWrite call made during one invocation of `GetFontPaths`.  The
handles and COM interfaces that travel between the calls are opaque and are not
modelled; what is modelled is which call is made, in which order, with which
`LOGFONTW` or character, whether it succeeds, and what the routine does with the
answer.  Releasing resources (`BOOST_SCOPE_EXIT_ALL`, `scoped_holder`) has no
effect on the returned value and is left out.
-/

namespace Aegisub

/-! ## Data model -/

/-- Wide string, a sequence of `wchar_t` code units. -/
abbrev WString := List Nat

/-- The fields of the Win32 `LOGFONTW` that `GetFontPaths` writes or reads.  The
remaining fields stay at the zero that `LOGFONTW lf{}` gives them. -/
structure LOGFONTW where
  lfWeight : Int
  lfItalic : Nat
  lfCharSet : Nat
  lfOutPrecision : Nat
  lfClipPrecision : Nat
  lfQuality : Nat
  lfPitchAndFamily : Nat
  lfFaceName : WString
deriving DecidableEq, Repr

/-- Win32 constant `DEFAULT_CHARSET`. -/
def DEFAULT_CHARSET : Nat := 1
/-- Win32 constant `OUT_TT_PRECIS`. -/
def OUT_TT_PRECIS : Nat := 4
/-- Win32 constant `CLIP_DEFAULT_PRECIS`. -/
def CLIP_DEFAULT_PRECIS : Nat := 0
/-- Win32 constant `ANTIALIASED_QUALITY`. -/
def ANTIALIASED_QUALITY : Nat := 4
/-- Win32 constant `DEFAULT_PITCH`. -/
def DEFAULT_PITCH : Nat := 0
/-- Win32 constant `FF_DONTCARE`. -/
def FF_DONTCARE : Nat := 0
/-- Win32 constant `LF_FACESIZE`, the capacity of `lfFaceName`. -/
def LF_FACESIZE : Nat := 32

/-- Modelled from the spec: `CollectionResult` is declared in `font_file_lister.h`,
which is not among the sources.  The spec's ResolutionResult gives the fields:
the missing code points (integers, appended by `ret.missing += character`), the
file paths, and the two flags, which start out false. -/
structure CollectionResult where
  missing : List Int := []
  paths : List WString := []
  fake_bold : Bool := false
  fake_italic : Bool := false
deriving DecidableEq, Repr

/-- One observable action of `GetFontPaths`: a platform call (with the argument
that the model tracks) or a message handed to the status callback `test`. -/
inductive Call where
  | EnumFontFamiliesEx (lf : LOGFONTW)
  | CreateFontIndirect (lf : LOGFONTW)
  | SelectFont
  | CreateFontFaceFromHdc
  | GetFontFromFontFace
  | GetFiles
  | GetReferenceKey
  | GetLoader
  | QueryInterface
  | GetFilePathLengthFromKey
  | GetFilePathFromKey
  | CreateFile
  | GetFinalPathNameByHandle
  | GetFullPathName
  | HasCharacter (c : Nat)
  | test (msg : String)
deriving DecidableEq, Repr

/-- The answers of the platform during one invocation of `GetFontPaths`.
`HRESULT` answers are `true` for `SUCCEEDED`; length-returning calls answer the
`DWORD` they return (zero is failure). -/
structure Platform where
  /-- Library routine `agi::charset::ConvertW`: UTF-8 to wide string. -/
  ConvertW : String → WString
  /-- The `LOGFONTW` records the enumeration callback pushes into `matches`. -/
  EnumFontFamiliesEx : LOGFONTW → List LOGFONTW
  /-- Whether `CreateFontIndirect` returns a non-null handle. -/
  CreateFontIndirect : LOGFONTW → Bool
  CreateFontFaceFromHdc : Bool
  GetFontFromFontFace : Bool
  GetFiles : Bool
  GetReferenceKey : Bool
  GetLoader : Bool
  QueryInterface : Bool
  GetFilePathLengthFromKey : Bool
  GetFilePathFromKey : Bool
  /-- Whether `CreateFile` returns something else than `INVALID_HANDLE_VALUE`. -/
  CreateFile : Bool
  /-- First `GetFinalPathNameByHandle` (null buffer): the length it returns. -/
  GetFinalPathNameByHandle1 : Nat
  /-- Second `GetFinalPathNameByHandle`: the length it returns. -/
  GetFinalPathNameByHandle2 : Nat
  /-- First `GetFullPathName` (null buffer): the length it returns. -/
  GetFullPathName1 : Nat
  /-- Second `GetFullPathName`: the length it returns. -/
  GetFullPathName2 : Nat
  /-- The string the second `GetFullPathName` leaves in `normalized_no_path`. -/
  normalized_no_path : WString
  /-- The face's `HasCharacter`: `none` when the `HRESULT` is a failure,
  otherwise the `BOOL` written to `exists`. -/
  HasCharacter : Nat → Option Bool

/-- What one invocation yields: the returned `CollectionResult` and the actions
performed, in order. -/
structure Run where
  ret : CollectionResult
  calls : List Call
deriving DecidableEq, Repr

/-! ## `GetFontPaths` -/

/-- The lambda `is_italic` of `GetFontPaths` (captures `italic`). -/
def is_italic (italic : Bool) (lf : LOGFONTW) : Bool :=
  !italic || lf.lfItalic != 0

/-- The lambda `is_bold` of `GetFontPaths` (captures `bold`). -/
def is_bold (bold : Int) (lf : LOGFONTW) : Bool :=
  bold == 0
    || (bold == 1 && decide (lf.lfWeight ≥ 700))
    || (decide (bold > 1) && decide (lf.lfWeight > bold))

/-- The three accumulators of the style loop. -/
structure StyleScan where
  has_bold : Bool := false
  has_italic : Bool := false
  has_bold_italic : Bool := false
deriving DecidableEq, Repr

/-- Body of `for (auto const& match : matches)`. -/
def scanStep (bold : Int) (italic : Bool) (s : StyleScan) («match» : LOGFONTW) : StyleScan :=
  { has_bold := s.has_bold || is_bold bold «match»
    has_italic := s.has_italic || is_italic italic «match»
    has_bold_italic :=
      s.has_bold_italic || (is_bold bold «match» && is_italic italic «match») }

/-- The style loop over all enumerated variants. -/
def scanMatches (bold : Int) (italic : Bool) («matches» : List LOGFONTW) : StyleScan :=
  «matches».foldl (scanStep bold italic) {}

/-- The block `if (italic || bold) { ... }`: the result with the two flags set. -/
def checkStyle (ret : CollectionResult) (bold : Int) (italic : Bool)
    («matches» : List LOGFONTW) : CollectionResult :=
  if italic || bold != 0 then
    let s := scanMatches bold italic «matches»
    { ret with
      fake_italic := !s.has_italic
      fake_bold := if italic && s.has_italic then !s.has_bold_italic else !s.has_bold }
  else ret

/-- The cast `(UINT32)character`. -/
def toUINT32 (character : Int) : Nat := (character % 4294967296).toNat

/-- Body of `for (int character : characters)`. -/
def missingStep (P : Platform) (missing : List Int) (character : Int) : List Int :=
  match P.HasCharacter (toUINT32 character) with
  | none => missing ++ [character]
  | some «exists» => if !«exists» then missing ++ [character] else missing

/-- The `LOGFONTW` that `GetFontPaths` fills in. -/
def makeLogfont (P : Platform) (facename : String) (bold : Int) (italic : Bool) : LOGFONTW :=
  let weight : Int := if bold = 0 then 400 else if bold = 1 then 700 else bold
  { lfCharSet := DEFAULT_CHARSET
    lfFaceName := (P.ConvertW facename).take LF_FACESIZE
    lfItalic := if italic then 255 else 0
    lfWeight := weight
    lfOutPrecision := OUT_TT_PRECIS
    lfClipPrecision := CLIP_DEFAULT_PRECIS
    lfQuality := ANTIALIASED_QUALITY
    lfPitchAndFamily := DEFAULT_PITCH ||| FF_DONTCARE }

/-- Embedding of `GdiFontFileLister::GetFontPaths`, from `HFONT hfont =
CreateFontIndirect(&lf)` to the end: every failed step returns `ret` as it is. -/
def locateFile (P : Platform) (lf : LOGFONTW) (characters : List Int)
    (ret : CollectionResult) (log : List Call) : Run :=
  let log := log ++ [Call.CreateFontIndirect lf]
  if !P.CreateFontIndirect lf then
    ⟨ret, log ++ [Call.test "Fails CreateFontIndirect\n"]⟩
  else
  let log := log ++ [Call.SelectFont, Call.CreateFontFaceFromHdc]
  if !P.CreateFontFaceFromHdc then
    ⟨ret, log ++ [Call.test "Fails CreateFontFaceFromHdc\n"]⟩
  else
  let log := log ++ [Call.GetFontFromFontFace]
  if !P.GetFontFromFontFace then
    ⟨ret, log ++ [Call.test "Fails GetFontFromFontFace\n"]⟩
  else
  let log := log ++ [Call.GetFiles]
  if !P.GetFiles then
    ⟨ret, log ++ [Call.test "Fails GetFiles\n"]⟩
  else
  let log := log ++ [Call.GetReferenceKey]
  if !P.GetReferenceKey then
    ⟨ret, log ++ [Call.test "Fails GetReferenceKey\n"]⟩
  else
  let log := log ++ [Call.GetLoader]
  if !P.GetLoader then
    ⟨ret, log ++ [Call.test "Fails GetLoader\n"]⟩
  else
  let log := log ++ [Call.QueryInterface]
  if !P.QueryInterface then
    ⟨ret, log ++ [Call.test "Fails QueryInterface\n"]⟩
  else
  let log := log ++ [Call.GetFilePathLengthFromKey]
  if !P.GetFilePathLengthFromKey then
    ⟨ret, log ++ [Call.test "Fails GetFilePathLengthFromKey\n"]⟩
  else
  let log := log ++ [Call.GetFilePathFromKey]
  if !P.GetFilePathFromKey then
    ⟨ret, log ++ [Call.test "Fails GetFilePathFromKey\n"]⟩
  else
  let log := log ++ [Call.test "Test\n", Call.CreateFile]
  if !P.CreateFile then
    ⟨ret, log ++ [Call.test "Fails CreateFile\n"]⟩
  else
  let log := log ++ [Call.GetFinalPathNameByHandle]
  if P.GetFinalPathNameByHandle1 = 0 then
    ⟨ret, log ++ [Call.test "Fails GetFinalPathNameByHandle 1\n"]⟩
  else
  let log := log ++ [Call.GetFinalPathNameByHandle]
  if P.GetFinalPathNameByHandle2 = 0 then
    ⟨ret, log ++ [Call.test "Fails GetFinalPathNameByHandle 2\n"]⟩
  else
  let log := log ++ [Call.GetFullPathName]
  if P.GetFullPathName1 = 0 then
    ⟨ret, log ++ [Call.test "Fails GetFullPathName 1\n"]⟩
  else
  let log := log ++ [Call.GetFullPathName]
  if P.GetFullPathName2 = 0 then
    ⟨ret, log ++ [Call.test "Fails GetFullPathName 2\n"]⟩
  else
  let ret := { ret with paths := ret.paths ++ [P.normalized_no_path] }
  let ret := { ret with missing := characters.foldl (missingStep P) ret.missing }
  ⟨ret, log ++ characters.map (fun character => Call.HasCharacter (toUINT32 character))⟩

/-- Embedding of `GdiFontFileLister::GetFontPaths`. -/
def GetFontPaths (P : Platform) (facename : String) (bold : Int) (italic : Bool)
    (characters : List Int) : Run :=
  let ret : CollectionResult := {}
  let lf := makeLogfont P facename bold italic
  let «matches» := P.EnumFontFamiliesEx lf
  let log := [Call.EnumFontFamiliesEx lf]
  if «matches».isEmpty then ⟨ret, log⟩
  else
  let ret := checkStyle ret bold italic «matches»
  locateFile P lf characters ret log

/-! ## `GetFaceNames` and `GetFaceName` (`font.cpp`) -/

/-- A `wxString`, as the sequence of its `wxChar` code units. -/
abbrev wxString := List Nat

/-- A `wxFont` as `GetFaceNames` builds it: point size, underline flag and face
name; family, style and weight are the `DEFAULT` / `NORMAL` constants. -/
structure wxFont where
  pointSize : Nat
  underlined : Bool
  faceName : wxString
deriving DecidableEq, Repr

/-- The exception `agi::EnvironmentError`, with its message. -/
structure EnvironmentError where
  msg : String
deriving DecidableEq, Repr

/-- The buffer filled by `GetOutlineTextMetricsW`, seen as `wxChar` units, with
the byte offset `otmpFamilyName` of the family name inside it. -/
structure OUTLINETEXTMETRICW where
  otmpFamilyName : Nat
  buffer : List Nat
deriving DecidableEq, Repr

/-- The answers of wxWidgets and GDI to the calls of `font.cpp`.  The GDI answers
are indexed by the font whose lookup makes the call. -/
structure FontEnv where
  /-- Answer of `wxFontEnumerator::GetFacenames()`. -/
  GetFacenames : List wxString
  /-- Whether `CreateCompatibleDC(nullptr)` returns a non-null context. -/
  CreateCompatibleDC : wxFont → Bool
  /-- Answer of `GetOutlineTextMetricsW(dc, 0, nullptr)`: the size needed. -/
  otm_size : wxFont → Nat
  /-- Answer of `GetOutlineTextMetricsW(dc, otm_size, otm)`: `none` when it
  returns zero, otherwise the buffer it filled. -/
  GetOutlineTextMetricsW : wxFont → Nat → Option OUTLINETEXTMETRICW
  /-- Answer of `wxFont::GetFaceName()`. -/
  GetFaceName : wxFont → wxString

/-- Size of a `wxChar` in bytes on Windows. -/
def sizeof_wxChar : Nat := 2

/-- The NUL-terminated string that starts at unit `i` of a buffer. -/
def readAt (buffer : List Nat) (i : Nat) : wxString :=
  (buffer.drop i).takeWhile (fun u => u != 0)

/-- Embedding of `GetFaceName`; `win32` says whether `_WIN32` is defined.  Each
`throw agi::EnvironmentError` is an `error`; `malloc` is taken to succeed. -/
def GetFaceName (win32 : Bool) (E : FontEnv) (font : wxFont) :
    Except EnvironmentError wxString :=
  if win32 then
    if !E.CreateCompatibleDC font then
      .error ⟨"Failed to initialize the HDC"⟩
    else
    let otm_size := E.otm_size font
    if otm_size = 0 then
      .error ⟨"Failed to initialize the otm_size"⟩
    else
    match E.GetOutlineTextMetricsW font otm_size with
    | none => .error ⟨"Failed to initialize the otm"⟩
    | some otm => .ok (readAt otm.buffer (otm.otmpFamilyName / sizeof_wxChar))
  else
    .ok (E.GetFaceName font)

/-- Library routine `wxArrayString::Sort()`: ascending order of the strings,
compared unit by unit. -/
def wxArrayString_Sort (names : List wxString) : List wxString :=
  names.insertionSort (fun a b => a ≤ b)

/-- The font `wxFont(10, wxFONTFAMILY_DEFAULT, wxFONTSTYLE_NORMAL,
wxFONTWEIGHT_NORMAL, false, face_name)` that `GetFaceNames` builds. -/
def makeFont (face_name : wxString) : wxFont :=
  { pointSize := 10, underlined := false, faceName := face_name }

/-- The loop `for (const wxString& face_name: truncated_face_name_list)` of
`GetFaceNames`: each name is replaced by what `GetFaceName` reads for a font
of that name; the first exception ends the loop. -/
def collectFaceNames (E : FontEnv) :
    List wxString → List wxString → Except EnvironmentError (List wxString)
  | [], face_name_list => .ok face_name_list
  | face_name :: rest, face_name_list =>
    let font := makeFont face_name
    match GetFaceName true E font with
    | .error e => .error e
    | .ok name => collectFaceNames E rest (face_name_list ++ [name])

/-- Embedding of `GetFaceNames`; `win32` says whether `_WIN32` is defined. -/
def GetFaceNames (win32 : Bool) (E : FontEnv) : Except EnvironmentError (List wxString) :=
  if win32 then
    let truncated_face_name_list := E.GetFacenames
    match collectFaceNames E truncated_face_name_list [] with
    | .error e => .error e
    | .ok face_name_list => .ok (wxArrayString_Sort face_name_list)
  else
    let font_list := E.GetFacenames
    .ok (wxArrayString_Sort font_list)

/-! ## The style rule in the words of the specification -/

/-- Spec, step 3: the candidate passes the italic test. -/
def is_italic_ok (italic : Bool) (candidate : LOGFONTW) : Prop :=
  italic = false ∨ candidate.lfItalic ≠ 0

/-- Spec, step 3: the candidate passes the bold test. -/
def is_bold_ok (bold : Int) (candidate : LOGFONTW) : Prop :=
  bold = 0 ∨ (bold = 1 ∧ candidate.lfWeight ≥ 700) ∨ (bold > 1 ∧ candidate.lfWeight > bold)

instance (italic : Bool) (candidate : LOGFONTW) : Decidable (is_italic_ok italic candidate) :=
  inferInstanceAs (Decidable (_ ∨ _))

instance (bold : Int) (candidate : LOGFONTW) : Decidable (is_bold_ok bold candidate) :=
  inferInstanceAs (Decidable (_ ∨ _))

/-- Spec, step 3: some candidate passes the bold test. -/
def has_bold (bold : Int) (candidates : List LOGFONTW) : Prop :=
  ∃ c ∈ candidates, is_bold_ok bold c

/-- Spec, step 3: some candidate passes the italic test. -/
def has_italic (italic : Bool) (candidates : List LOGFONTW) : Prop :=
  ∃ c ∈ candidates, is_italic_ok italic c

/-- Spec, step 3: some single candidate passes both tests. -/
def has_bold_italic (bold : Int) (italic : Bool) (candidates : List LOGFONTW) : Prop :=
  ∃ c ∈ candidates, is_bold_ok bold c ∧ is_italic_ok italic c

instance (bold : Int) (candidates : List LOGFONTW) : Decidable (has_bold bold candidates) :=
  inferInstanceAs (Decidable (∃ c ∈ candidates, _))

instance (italic : Bool) (candidates : List LOGFONTW) :
    Decidable (has_italic italic candidates) :=
  inferInstanceAs (Decidable (∃ c ∈ candidates, _))

instance (bold : Int) (italic : Bool) (candidates : List LOGFONTW) :
    Decidable (has_bold_italic bold italic candidates) :=
  inferInstanceAs (Decidable (∃ c ∈ candidates, _))

/-- Every platform step after the enumeration succeeds, for the font request `lf`. -/
def allStepsSucceed (P : Platform) (lf : LOGFONTW) : Prop :=
  P.CreateFontIndirect lf = true ∧ P.CreateFontFaceFromHdc = true ∧
  P.GetFontFromFontFace = true ∧ P.GetFiles = true ∧ P.GetReferenceKey = true ∧
  P.GetLoader = true ∧ P.QueryInterface = true ∧ P.GetFilePathLengthFromKey = true ∧
  P.GetFilePathFromKey = true ∧ P.CreateFile = true ∧
  P.GetFinalPathNameByHandle1 ≠ 0 ∧ P.GetFinalPathNameByHandle2 ≠ 0 ∧
  P.GetFullPathName1 ≠ 0 ∧ P.GetFullPathName2 ≠ 0

instance (P : Platform) (lf : LOGFONTW) : Decidable (allStepsSucceed P lf) :=
  inferInstanceAs (Decidable (_ ∧ _))

/-! ## Sample platforms and families -/

/-- A variant of the given weight and slant, as the enumeration reports it. -/
def variant (weight : Int) (italic : Bool) : LOGFONTW :=
  { lfWeight := weight, lfItalic := if italic then 255 else 0, lfCharSet := 0,
    lfOutPrecision := 0, lfClipPrecision := 0, lfQuality := 0, lfPitchAndFamily := 0,
    lfFaceName := [] }

/-- A platform on which the family has the given variants, the handle is created
when `handle` holds, every later step succeeds, and exactly the code units below
128 are covered (the query for unit 127 fails). -/
def samplePlatform (variants : List LOGFONTW) (handle : Bool) : Platform :=
  { ConvertW := fun s => s.toList.map Char.toNat
    EnumFontFamiliesEx := fun _ => variants
    CreateFontIndirect := fun _ => handle
    CreateFontFaceFromHdc := true
    GetFontFromFontFace := true
    GetFiles := true
    GetReferenceKey := true
    GetLoader := true
    QueryInterface := true
    GetFilePathLengthFromKey := true
    GetFilePathFromKey := true
    CreateFile := true
    GetFinalPathNameByHandle1 := 3
    GetFinalPathNameByHandle2 := 3
    GetFullPathName1 := 3
    GetFullPathName2 := 3
    normalized_no_path := [67, 58, 92, 102]
    HasCharacter := fun c => if c = 127 then none else some (decide (c < 128)) }

/-- The variants the platform enumerates for a query. -/
def enumerated (P : Platform) (facename : String) (bold : Int) (italic : Bool) :
    List LOGFONTW :=
  P.EnumFontFamiliesEx (makeLogfont P facename bold italic)

/-- The family of the first example: regular, bold and bold-italic, no plain italic. -/
def regularBoldBoldItalic : List LOGFONTW :=
  [variant 400 false, variant 700 false, variant 700 true]

/-- A family made of regular (400, upright), bold (700, upright) and bold-italic
(700, italic) variants, each present, and nothing else. -/
def isRegularBoldBoldItalic (ms : List LOGFONTW) : Prop :=
  (∀ m ∈ ms, (m.lfWeight = 400 ∧ m.lfItalic = 0) ∨ (m.lfWeight = 700 ∧ m.lfItalic = 0) ∨
    (m.lfWeight = 700 ∧ m.lfItalic ≠ 0)) ∧
  (∃ m ∈ ms, m.lfWeight = 400 ∧ m.lfItalic = 0) ∧
  (∃ m ∈ ms, m.lfWeight = 700 ∧ m.lfItalic = 0) ∧
  (∃ m ∈ ms, m.lfWeight = 700 ∧ m.lfItalic ≠ 0)

instance (ms : List LOGFONTW) : Decidable (isRegularBoldBoldItalic ms) :=
  inferInstanceAs (Decidable (_ ∧ _))

/-- A non-empty family without any italic variant and without any variant of
weight 700 or more. -/
def isLightUpright (ms : List LOGFONTW) : Prop :=
  ms ≠ [] ∧ ∀ m ∈ ms, m.lfItalic = 0 ∧ m.lfWeight < 700

instance (ms : List LOGFONTW) : Decidable (isLightUpright ms) :=
  inferInstanceAs (Decidable (_ ∧ _))

/-- The family with the single variant regular (400, upright). -/
def regularOnly : List LOGFONTW := [variant 400 false]

/-- The family with a regular (400) and a bold (700) variant, both upright. -/
def regularAndBold : List LOGFONTW := [variant 400 false, variant 700 false]

/-- A font environment for the Windows build: the enumerator answers `raw`, and
the outline metrics of a font hold, two units in, the family name `family`
computed from the requested face name; no metrics exist for the empty name. -/
def sampleEnv (raw : List wxString) (family : wxString → wxString) : FontEnv :=
  { GetFacenames := raw
    CreateCompatibleDC := fun _ => true
    otm_size := fun font => if font.faceName = [] then 0 else 2 * (3 + (family font.faceName).length)
    GetOutlineTextMetricsW := fun font _ =>
      some { otmpFamilyName := 4, buffer := [1, 1] ++ family font.faceName ++ [0] }
    GetFaceName := fun font => font.faceName }

/-! ## Lemmas on the embedding -/

theorem scan_foldl (bold : Int) (italic : Bool) (l : List LOGFONTW) (s : StyleScan) :
    l.foldl (scanStep bold italic) s =
      { has_bold := s.has_bold || l.any (is_bold bold)
        has_italic := s.has_italic || l.any (is_italic italic)
        has_bold_italic :=
          s.has_bold_italic || l.any (fun m => is_bold bold m && is_italic italic m) } := by
  induction l generalizing s with
  | nil => simp
  | cons m l ih => simp [List.foldl_cons, ih, scanStep, Bool.or_assoc]

theorem is_bold_iff (bold : Int) (m : LOGFONTW) : is_bold bold m = true ↔ is_bold_ok bold m := by
  simp [is_bold, is_bold_ok, or_assoc]

theorem is_italic_iff (italic : Bool) (m : LOGFONTW) :
    is_italic italic m = true ↔ is_italic_ok italic m := by
  cases italic <;> simp [is_italic, is_italic_ok]

theorem scan_has_bold (bold : Int) (italic : Bool) (l : List LOGFONTW) :
    (scanMatches bold italic l).has_bold = true ↔ has_bold bold l := by
  simp [scanMatches, scan_foldl, has_bold, is_bold_iff]

theorem scan_has_italic (bold : Int) (italic : Bool) (l : List LOGFONTW) :
    (scanMatches bold italic l).has_italic = true ↔ has_italic italic l := by
  simp [scanMatches, scan_foldl, has_italic, is_italic_iff]

theorem scan_has_bold_italic (bold : Int) (italic : Bool) (l : List LOGFONTW) :
    (scanMatches bold italic l).has_bold_italic = true ↔ has_bold_italic bold italic l := by
  simp [scanMatches, scan_foldl, has_bold_italic, is_bold_iff, is_italic_iff]

theorem locateFile_fake_bold (P : Platform) (lf : LOGFONTW) (cs : List Int)
    (ret : CollectionResult) (log : List Call) :
    (locateFile P lf cs ret log).ret.fake_bold = ret.fake_bold := by
  unfold locateFile
  simp only [apply_ite Run.ret, apply_ite CollectionResult.fake_bold, ite_self]

theorem locateFile_fake_italic (P : Platform) (lf : LOGFONTW) (cs : List Int)
    (ret : CollectionResult) (log : List Call) :
    (locateFile P lf cs ret log).ret.fake_italic = ret.fake_italic := by
  unfold locateFile
  simp only [apply_ite Run.ret, apply_ite CollectionResult.fake_italic, ite_self]

theorem locateFile_paths (P : Platform) (lf : LOGFONTW) (cs : List Int)
    (ret : CollectionResult) (log : List Call) :
    (locateFile P lf cs ret log).ret.paths =
      if allStepsSucceed P lf then ret.paths ++ [P.normalized_no_path] else ret.paths := by
  unfold locateFile allStepsSucceed
  simp only [apply_ite Run.ret, apply_ite CollectionResult.paths]
  by_cases h1 : P.CreateFontIndirect lf = true <;> simp [h1]
  by_cases h2 : P.CreateFontFaceFromHdc = true <;> simp [h2]
  by_cases h3 : P.GetFontFromFontFace = true <;> simp [h3]
  by_cases h4 : P.GetFiles = true <;> simp [h4]
  by_cases h5 : P.GetReferenceKey = true <;> simp [h5]
  by_cases h6 : P.GetLoader = true <;> simp [h6]
  by_cases h7 : P.QueryInterface = true <;> simp [h7]
  by_cases h8 : P.GetFilePathLengthFromKey = true <;> simp [h8]
  by_cases h9 : P.GetFilePathFromKey = true <;> simp [h9]
  by_cases h10 : P.CreateFile = true <;> simp [h10]
  by_cases h11 : P.GetFinalPathNameByHandle1 = 0 <;> simp [h11]
  by_cases h12 : P.GetFinalPathNameByHandle2 = 0 <;> simp [h12]
  by_cases h13 : P.GetFullPathName1 = 0 <;> simp [h13]

theorem locateFile_missing (P : Platform) (lf : LOGFONTW) (cs : List Int)
    (ret : CollectionResult) (log : List Call) :
    (locateFile P lf cs ret log).ret.missing =
      if allStepsSucceed P lf then cs.foldl (missingStep P) ret.missing else ret.missing := by
  unfold locateFile allStepsSucceed
  simp only [apply_ite Run.ret, apply_ite CollectionResult.missing]
  by_cases h1 : P.CreateFontIndirect lf = true <;> simp [h1]
  by_cases h2 : P.CreateFontFaceFromHdc = true <;> simp [h2]
  by_cases h3 : P.GetFontFromFontFace = true <;> simp [h3]
  by_cases h4 : P.GetFiles = true <;> simp [h4]
  by_cases h5 : P.GetReferenceKey = true <;> simp [h5]
  by_cases h6 : P.GetLoader = true <;> simp [h6]
  by_cases h7 : P.QueryInterface = true <;> simp [h7]
  by_cases h8 : P.GetFilePathLengthFromKey = true <;> simp [h8]
  by_cases h9 : P.GetFilePathFromKey = true <;> simp [h9]
  by_cases h10 : P.CreateFile = true <;> simp [h10]
  by_cases h11 : P.GetFinalPathNameByHandle1 = 0 <;> simp [h11]
  by_cases h12 : P.GetFinalPathNameByHandle2 = 0 <;> simp [h12]
  by_cases h13 : P.GetFullPathName1 = 0 <;> simp [h13]

theorem exists_ite_calls {α : Type} (c : Prop) [Decidable c] (a b : List α) (f : List α → List α)
    (ha : ∃ r, a = f r) (hb : ∃ r, b = f r) : ∃ r, (if c then a else b) = f r := by
  split_ifs
  · exact ha
  · exact hb

theorem locateFile_calls_head (P : Platform) (lf : LOGFONTW) (cs : List Int)
    (ret : CollectionResult) (log : List Call) :
    ∃ rest, (locateFile P lf cs ret log).calls = log ++ Call.CreateFontIndirect lf :: rest := by
  unfold locateFile
  simp only [apply_ite Run.calls, List.append_assoc]
  repeat (first | exact ⟨_, rfl⟩ | apply exists_ite_calls)

theorem locateFile_no_handle (P : Platform) (lf : LOGFONTW) (cs : List Int)
    (ret : CollectionResult) (log : List Call) (h : P.CreateFontIndirect lf = false) :
    locateFile P lf cs ret log =
      ⟨ret, log ++ [Call.CreateFontIndirect lf, Call.test "Fails CreateFontIndirect\n"]⟩ := by
  unfold locateFile
  simp [h]

theorem missingStep_eq (P : Platform) (acc : List Int) (c : Int) :
    missingStep P acc c =
      acc ++ (if P.HasCharacter (toUINT32 c) = none ∨ P.HasCharacter (toUINT32 c) = some false
        then [c] else []) := by
  unfold missingStep
  rcases h : P.HasCharacter (toUINT32 c) with _ | (_ | _) <;> simp

theorem missing_foldl_eq (P : Platform) (cs : List Int) (acc : List Int) :
    cs.foldl (missingStep P) acc =
      acc ++ cs.filter (fun c => decide (P.HasCharacter (toUINT32 c) = none ∨
        P.HasCharacter (toUINT32 c) = some false)) := by
  induction cs generalizing acc with
  | nil => simp
  | cons d cs ih =>
    rw [List.foldl_cons, ih, missingStep_eq, List.filter_cons]
    split_ifs <;> simp_all

theorem missing_foldl (P : Platform) (cs : List Int) (c : Int) :
    c ∈ cs.foldl (missingStep P) [] ↔
      c ∈ cs ∧ (P.HasCharacter (toUINT32 c) = none ∨
        P.HasCharacter (toUINT32 c) = some false) := by
  rw [missing_foldl_eq]
  simp

theorem GetFontPaths_of_empty (P : Platform) (facename : String) (bold : Int) (italic : Bool)
    (characters : List Int) (h : enumerated P facename bold italic = []) :
    GetFontPaths P facename bold italic characters =
      ⟨{}, [Call.EnumFontFamiliesEx (makeLogfont P facename bold italic)]⟩ := by
  unfold enumerated at h
  simp [GetFontPaths, h]

theorem GetFontPaths_of_nonempty (P : Platform) (facename : String) (bold : Int) (italic : Bool)
    (characters : List Int) (h : enumerated P facename bold italic ≠ []) :
    GetFontPaths P facename bold italic characters =
      locateFile P (makeLogfont P facename bold italic) characters
        (checkStyle {} bold italic (enumerated P facename bold italic))
        [Call.EnumFontFamiliesEx (makeLogfont P facename bold italic)] := by
  unfold enumerated at h ⊢
  simp [GetFontPaths, h]

theorem checkStyle_fake_italic (bold : Int) (italic : Bool) (ms : List LOGFONTW) :
    (checkStyle {} bold italic ms).fake_italic = true ↔
      (italic = true ∨ bold ≠ 0) ∧ ¬ has_italic italic ms := by
  unfold checkStyle
  by_cases hq : (italic || bold != 0) = true
  · have hq2 : italic = true ∨ bold ≠ 0 := by simpa using hq
    simp only [hq, if_true, Bool.not_eq_true', hq2, true_and]
    rw [← scan_has_italic bold italic ms]
    simp
  · have hq2 : ¬ (italic = true ∨ bold ≠ 0) := by simpa using hq
    simp [hq, hq2]

theorem checkStyle_fake_bold (bold : Int) (italic : Bool) (ms : List LOGFONTW) :
    (checkStyle {} bold italic ms).fake_bold = true ↔
      (italic = true ∨ bold ≠ 0) ∧
        (if italic = true ∧ has_italic italic ms then ¬ has_bold_italic bold italic ms
          else ¬ has_bold bold ms) := by
  unfold checkStyle
  by_cases hq : (italic || bold != 0) = true
  · have hq2 : italic = true ∨ bold ≠ 0 := by simpa using hq
    simp only [hq, if_true, hq2, true_and]
    have h1 := scan_has_italic bold italic ms
    have h2 := scan_has_bold bold italic ms
    have h3 := scan_has_bold_italic bold italic ms
    generalize (scanMatches bold italic ms).has_italic = a at h1 ⊢
    generalize (scanMatches bold italic ms).has_bold = b at h2 ⊢
    generalize (scanMatches bold italic ms).has_bold_italic = c at h3 ⊢
    cases italic <;> cases a <;> cases b <;> cases c <;> simp_all
  · have hq2 : ¬ (italic = true ∨ bold ≠ 0) := by simpa using hq
    simp [hq, hq2]

theorem GetFontPaths_fake_italic (P : Platform) (facename : String) (bold : Int) (italic : Bool)
    (characters : List Int) (h : enumerated P facename bold italic ≠ []) :
    (GetFontPaths P facename bold italic characters).ret.fake_italic = true ↔
      (italic = true ∨ bold ≠ 0) ∧ ¬ has_italic italic (enumerated P facename bold italic) := by
  rw [GetFontPaths_of_nonempty P facename bold italic characters h, locateFile_fake_italic,
    checkStyle_fake_italic]

theorem GetFontPaths_fake_bold (P : Platform) (facename : String) (bold : Int) (italic : Bool)
    (characters : List Int) (h : enumerated P facename bold italic ≠ []) :
    (GetFontPaths P facename bold italic characters).ret.fake_bold = true ↔
      (italic = true ∨ bold ≠ 0) ∧
        (if italic = true ∧ has_italic italic (enumerated P facename bold italic)
          then ¬ has_bold_italic bold italic (enumerated P facename bold italic)
          else ¬ has_bold bold (enumerated P facename bold italic)) := by
  rw [GetFontPaths_of_nonempty P facename bold italic characters h, locateFile_fake_bold,
    checkStyle_fake_bold]

/-! ## Properties of `GetFontPaths` -/

theorem fake_false_of_bold_italic (P : Platform) (facename : String) (bold : Int)
    (characters : List Int)
    (h : ∃ m ∈ enumerated P facename bold true, is_bold_ok bold m ∧ m.lfItalic ≠ 0) :
    (GetFontPaths P facename bold true characters).ret.fake_italic = false ∧
    (GetFontPaths P facename bold true characters).ret.fake_bold = false := by
  obtain ⟨m, hm, hb, hi⟩ := h
  have hne : enumerated P facename bold true ≠ [] := List.ne_nil_of_mem hm
  have hI : has_italic true (enumerated P facename bold true) := ⟨m, hm, Or.inr hi⟩
  have hBI : has_bold_italic bold true (enumerated P facename bold true) :=
    ⟨m, hm, hb, Or.inr hi⟩
  constructor
  · rw [← Bool.not_eq_true, GetFontPaths_fake_italic P facename bold true characters hne]
    simp [hI]
  · rw [← Bool.not_eq_true, GetFontPaths_fake_bold P facename bold true characters hne]
    simp [hI, hBI]

/-- C1 (as the code has it): for a family of regular, bold and bold-italic variants
without a plain italic, the italic-only query and the bold-italic query both
report neither style as faked: the bold-italic variant passes the italic test. -/
theorem C1_bold_italic_variant_counts_as_italic (P : Platform) (facename : String)
    (characters : List Int)
    (h0 : isRegularBoldBoldItalic (enumerated P facename 0 true))
    (h1 : isRegularBoldBoldItalic (enumerated P facename 1 true)) :
    (GetFontPaths P facename 0 true characters).ret.fake_italic = false ∧
    (GetFontPaths P facename 0 true characters).ret.fake_bold = false ∧
    (GetFontPaths P facename 1 true characters).ret.fake_italic = false ∧
    (GetFontPaths P facename 1 true characters).ret.fake_bold = false := by
  obtain ⟨-, -, -, m0, hm0, hw0, hi0⟩ := h0
  obtain ⟨-, -, -, m1, hm1, hw1, hi1⟩ := h1
  have a := fake_false_of_bold_italic P facename 0 characters ⟨m0, hm0, Or.inl rfl, hi0⟩
  have b := fake_false_of_bold_italic P facename 1 characters
    ⟨m1, hm1, Or.inr (Or.inl ⟨rfl, by omega⟩), hi1⟩
  exact ⟨a.1, a.2, b.1, b.2⟩

theorem C1_bold_italic_variant_counts_as_italic_witness :
    isRegularBoldBoldItalic (enumerated (samplePlatform regularBoldBoldItalic true) "Arial" 0 true) ∧
    (GetFontPaths (samplePlatform regularBoldBoldItalic true) "Arial" 0 true [65]).ret.fake_italic
      = false ∧
    (GetFontPaths (samplePlatform regularBoldBoldItalic true) "Arial" 1 true [65]).ret.fake_bold
      = false :=
  have h := C1_bold_italic_variant_counts_as_italic
    (samplePlatform regularBoldBoldItalic true) "Arial" [65] (by decide) (by decide)
  ⟨by decide, h.1, h.2.2.2⟩

/-- C1 fails as stated: on the family regular, bold, bold-italic the code reports
`fake_italic = false` for both queries, where the claim has `true`. -/
theorem C1_counterexample :
    isRegularBoldBoldItalic regularBoldBoldItalic ∧
    enumerated (samplePlatform regularBoldBoldItalic true) "Arial" 0 true = regularBoldBoldItalic ∧
    enumerated (samplePlatform regularBoldBoldItalic true) "Arial" 1 true = regularBoldBoldItalic ∧
    (GetFontPaths (samplePlatform regularBoldBoldItalic true) "Arial" 0 true []).ret.fake_italic
      = false ∧
    (GetFontPaths (samplePlatform regularBoldBoldItalic true) "Arial" 1 true []).ret.fake_italic
      = false := by
  decide

/-- C2: for a styled query on a non-empty family, `fake_italic` is the negation of
has_italic, and `fake_bold` is the negation of has_bold_italic when italic is
requested and has_italic holds, of has_bold otherwise. -/
theorem C2_fake_flags_formula (P : Platform) (facename : String) (bold : Int) (italic : Bool)
    (characters : List Int) (hq : bold ≠ 0 ∨ italic = true)
    (hne : enumerated P facename bold italic ≠ []) :
    ((GetFontPaths P facename bold italic characters).ret.fake_italic = true ↔
      ¬ has_italic italic (enumerated P facename bold italic)) ∧
    ((GetFontPaths P facename bold italic characters).ret.fake_bold = true ↔
      if italic = true ∧ has_italic italic (enumerated P facename bold italic)
        then ¬ has_bold_italic bold italic (enumerated P facename bold italic)
        else ¬ has_bold bold (enumerated P facename bold italic)) := by
  have hq2 : italic = true ∨ bold ≠ 0 := hq.symm
  rw [GetFontPaths_fake_italic P facename bold italic characters hne,
    GetFontPaths_fake_bold P facename bold italic characters hne]
  simp only [hq2, true_and, and_self]

theorem C2_fake_flags_formula_witness :
    ((GetFontPaths (samplePlatform regularBoldBoldItalic true) "Arial" 1 true [65]).ret.fake_italic
        = true ↔
      ¬ has_italic true (enumerated (samplePlatform regularBoldBoldItalic true) "Arial" 1 true)) ∧
    ((GetFontPaths (samplePlatform regularBoldBoldItalic true) "Arial" 1 true [65]).ret.fake_bold
        = true ↔
      if true = true ∧
          has_italic true (enumerated (samplePlatform regularBoldBoldItalic true) "Arial" 1 true)
        then ¬ has_bold_italic 1 true
          (enumerated (samplePlatform regularBoldBoldItalic true) "Arial" 1 true)
        else ¬ has_bold 1 (enumerated (samplePlatform regularBoldBoldItalic true) "Arial" 1 true)) :=
  C2_fake_flags_formula (samplePlatform regularBoldBoldItalic true) "Arial" 1 true [65]
    (by decide) (by decide)

/-- C3 (as the code has it): with a non-empty family and a failed handle creation,
the result has no path and no missing code point, nothing after the creation
attempt is called, and the flags of the style check are returned unchanged. -/
theorem C3_handle_failure_keeps_flags (P : Platform) (facename : String) (bold : Int)
    (italic : Bool) (characters : List Int)
    (hne : enumerated P facename bold italic ≠ [])
    (hfail : P.CreateFontIndirect (makeLogfont P facename bold italic) = false) :
    (GetFontPaths P facename bold italic characters).ret.paths = [] ∧
    (GetFontPaths P facename bold italic characters).ret.missing = [] ∧
    (GetFontPaths P facename bold italic characters).calls =
      [Call.EnumFontFamiliesEx (makeLogfont P facename bold italic),
       Call.CreateFontIndirect (makeLogfont P facename bold italic),
       Call.test "Fails CreateFontIndirect\n"] ∧
    ((GetFontPaths P facename bold italic characters).ret.fake_italic = true ↔
      (italic = true ∨ bold ≠ 0) ∧ ¬ has_italic italic (enumerated P facename bold italic)) ∧
    ((GetFontPaths P facename bold italic characters).ret.fake_bold = true ↔
      (italic = true ∨ bold ≠ 0) ∧
        (if italic = true ∧ has_italic italic (enumerated P facename bold italic)
          then ¬ has_bold_italic bold italic (enumerated P facename bold italic)
          else ¬ has_bold bold (enumerated P facename bold italic))) := by
  refine ⟨?_, ?_, ?_, GetFontPaths_fake_italic P facename bold italic characters hne,
    GetFontPaths_fake_bold P facename bold italic characters hne⟩
  · rw [GetFontPaths_of_nonempty P facename bold italic characters hne, locateFile_no_handle _ _ _ _ _ hfail]
    unfold checkStyle
    split_ifs <;> rfl
  · rw [GetFontPaths_of_nonempty P facename bold italic characters hne, locateFile_no_handle _ _ _ _ _ hfail]
    unfold checkStyle
    split_ifs <;> rfl
  · rw [GetFontPaths_of_nonempty P facename bold italic characters hne, locateFile_no_handle _ _ _ _ _ hfail]
    rfl

theorem C3_handle_failure_keeps_flags_witness :
    (GetFontPaths (samplePlatform regularOnly false) "Arial" 1 true [65]).ret.paths = [] ∧
    ((GetFontPaths (samplePlatform regularOnly false) "Arial" 1 true [65]).ret.fake_italic = true ↔
      (true = true ∨ (1 : Int) ≠ 0) ∧
        ¬ has_italic true (enumerated (samplePlatform regularOnly false) "Arial" 1 true)) :=
  have h := C3_handle_failure_keeps_flags (samplePlatform regularOnly false) "Arial" 1 true [65]
    (by decide) (by decide)
  ⟨h.1, h.2.2.2.1⟩

/-- C3 fails as stated: the family has a variant, the handle creation fails, and
the returned flags are `fake_bold = true`, `fake_italic = true`, not discarded. -/
theorem C3_counterexample :
    enumerated (samplePlatform regularOnly false) "Arial" 1 true ≠ [] ∧
    (samplePlatform regularOnly false).CreateFontIndirect
      (makeLogfont (samplePlatform regularOnly false) "Arial" 1 true) = false ∧
    (GetFontPaths (samplePlatform regularOnly false) "Arial" 1 true []).ret.paths = [] ∧
    (GetFontPaths (samplePlatform regularOnly false) "Arial" 1 true []).ret.fake_bold = true ∧
    (GetFontPaths (samplePlatform regularOnly false) "Arial" 1 true []).ret.fake_italic = true := by
  decide

/-- C4: when the enumeration yields no variant, the result has no path and no
missing code point (and no faked style), and the enumeration is the only call
made: no handle is created and no glyph coverage is queried. -/
theorem C4_empty_family_total_failure (P : Platform) (facename : String) (bold : Int)
    (italic : Bool) (characters : List Int)
    (hempty : enumerated P facename bold italic = []) :
    (GetFontPaths P facename bold italic characters).ret.paths = [] ∧
    (GetFontPaths P facename bold italic characters).ret.missing = [] ∧
    (GetFontPaths P facename bold italic characters).ret.fake_bold = false ∧
    (GetFontPaths P facename bold italic characters).ret.fake_italic = false ∧
    (GetFontPaths P facename bold italic characters).calls =
      [Call.EnumFontFamiliesEx (makeLogfont P facename bold italic)] ∧
    (∀ lf, Call.CreateFontIndirect lf ∉ (GetFontPaths P facename bold italic characters).calls) ∧
    (∀ c, Call.HasCharacter c ∉ (GetFontPaths P facename bold italic characters).calls) := by
  rw [GetFontPaths_of_empty P facename bold italic characters hempty]
  simp

theorem C4_empty_family_total_failure_witness :
    enumerated (samplePlatform [] true) "Nowhere Sans" 700 true = [] ∧
    (GetFontPaths (samplePlatform [] true) "Nowhere Sans" 700 true [65, 955]).ret.paths = [] ∧
    (GetFontPaths (samplePlatform [] true) "Nowhere Sans" 700 true [65, 955]).ret.missing = [] :=
  have h := C4_empty_family_total_failure (samplePlatform [] true) "Nowhere Sans" 700 true
    [65, 955] (by decide)
  ⟨by decide, h.1, h.2.1⟩

theorem GetFontPaths_paths (P : Platform) (facename : String) (bold : Int) (italic : Bool)
    (characters : List Int) :
    (GetFontPaths P facename bold italic characters).ret.paths =
      if enumerated P facename bold italic ≠ [] ∧
          allStepsSucceed P (makeLogfont P facename bold italic)
        then [P.normalized_no_path] else [] := by
  by_cases hne : enumerated P facename bold italic = []
  · rw [GetFontPaths_of_empty P facename bold italic characters hne]
    simp [hne]
  · rw [GetFontPaths_of_nonempty P facename bold italic characters hne, locateFile_paths]
    have : (checkStyle {} bold italic (enumerated P facename bold italic)).paths = [] := by
      unfold checkStyle
      split_ifs <;> rfl
    simp [hne, this]

theorem GetFontPaths_missing (P : Platform) (facename : String) (bold : Int) (italic : Bool)
    (characters : List Int) :
    (GetFontPaths P facename bold italic characters).ret.missing =
      if enumerated P facename bold italic ≠ [] ∧
          allStepsSucceed P (makeLogfont P facename bold italic)
        then characters.foldl (missingStep P) [] else [] := by
  by_cases hne : enumerated P facename bold italic = []
  · rw [GetFontPaths_of_empty P facename bold italic characters hne]
    simp [hne]
  · rw [GetFontPaths_of_nonempty P facename bold italic characters hne, locateFile_missing]
    have : (checkStyle {} bold italic (enumerated P facename bold italic)).missing = [] := by
      unfold checkStyle
      split_ifs <;> rfl
    simp [hne, this]

theorem toUINT32_unique (c : Int) (n : Nat) :
    (n < 4294967296 ∧ (4294967296 : Int) ∣ c - n) ↔ n = toUINT32 c := by
  unfold toUINT32
  omega

theorem toUINT32_of_code_point (c : Int) (h0 : 0 ≤ c) (h1 : c < 4294967296) :
    toUINT32 c = c.toNat := by
  unfold toUINT32
  omega

/-- C5: when a path is returned, a code point is reported missing exactly when it
is among the required ones and the face's coverage query for that very code
point fails or answers no.  For an arbitrary `int` the query is made on the one
32-bit unsigned value congruent to it. -/
theorem C5_missing_exactly_uncovered (P : Platform) (facename : String) (bold : Int)
    (italic : Bool) (characters : List Int)
    (hok : (GetFontPaths P facename bold italic characters).ret.paths ≠ []) (c : Int) :
    (0 ≤ c → c < 4294967296 →
      (c ∈ (GetFontPaths P facename bold italic characters).ret.missing ↔
        c ∈ characters ∧ (P.HasCharacter c.toNat = none ∨
          P.HasCharacter c.toNat = some false))) ∧
    (c ∈ (GetFontPaths P facename bold italic characters).ret.missing ↔
      c ∈ characters ∧ ∃ n : Nat, n < 4294967296 ∧ (4294967296 : Int) ∣ c - n ∧
        (P.HasCharacter n = none ∨ P.HasCharacter n = some false)) := by
  have key : c ∈ (GetFontPaths P facename bold italic characters).ret.missing ↔
      c ∈ characters ∧ (P.HasCharacter (toUINT32 c) = none ∨
        P.HasCharacter (toUINT32 c) = some false) := by
    rw [GetFontPaths_paths] at hok
    rw [GetFontPaths_missing]
    split_ifs at hok ⊢ with h
    · exact missing_foldl P characters c
    · exact absurd rfl hok
  refine ⟨?_, ?_⟩
  · intro h0 h1
    rw [key, toUINT32_of_code_point c h0 h1]
  · rw [key]
    constructor
    · rintro ⟨hc, hq⟩
      exact ⟨hc, toUINT32 c, ((toUINT32_unique c (toUINT32 c)).mpr rfl).1,
        ((toUINT32_unique c (toUINT32 c)).mpr rfl).2, hq⟩
    · rintro ⟨hc, n, hn, hdvd, hq⟩
      have hnc : n = toUINT32 c := (toUINT32_unique c n).mp ⟨hn, hdvd⟩
      subst hnc
      exact ⟨hc, hq⟩

theorem C5_missing_exactly_uncovered_witness :
    (GetFontPaths (samplePlatform regularOnly true) "Arial" 0 false [65, 955, 127, 66]).ret.paths
      ≠ [] ∧
    (955 ∈ (GetFontPaths (samplePlatform regularOnly true) "Arial" 0 false
        [65, 955, 127, 66]).ret.missing ↔
      (955 : Int) ∈ [65, 955, 127, 66] ∧
        ((samplePlatform regularOnly true).HasCharacter (955 : Int).toNat = none ∨
          (samplePlatform regularOnly true).HasCharacter (955 : Int).toNat = some false)) ∧
    (GetFontPaths (samplePlatform regularOnly true) "Arial" 0 false
        [65, 955, 127, 66]).ret.missing = [955, 127] :=
  ⟨by decide, (C5_missing_exactly_uncovered (samplePlatform regularOnly true) "Arial" 0 false
    [65, 955, 127, 66] (by decide) 955).1 (by decide) (by decide), by decide⟩

/-- C6: a path is returned exactly when the family is non-empty and every later
platform step succeeds; then it is the single normalised path, and otherwise the
result has no path and no missing code point.  The routine always returns. -/
theorem C6_path_iff_all_steps_succeed (P : Platform) (facename : String) (bold : Int)
    (italic : Bool) (characters : List Int) :
    ((GetFontPaths P facename bold italic characters).ret.paths ≠ [] ↔
      enumerated P facename bold italic ≠ [] ∧
        allStepsSucceed P (makeLogfont P facename bold italic)) ∧
    ((GetFontPaths P facename bold italic characters).ret.paths ≠ [] →
      (GetFontPaths P facename bold italic characters).ret.paths = [P.normalized_no_path]) ∧
    (¬ (enumerated P facename bold italic ≠ [] ∧
        allStepsSucceed P (makeLogfont P facename bold italic)) →
      (GetFontPaths P facename bold italic characters).ret.paths = [] ∧
      (GetFontPaths P facename bold italic characters).ret.missing = []) := by
  rw [GetFontPaths_paths, GetFontPaths_missing]
  split_ifs with h
  · simp [h]
  · simp [h]

theorem not_has_italic_of_upright (ms : List LOGFONTW) (h : ∀ m ∈ ms, m.lfItalic = 0) :
    ¬ has_italic true ms := by
  rintro ⟨m, hm, hi⟩
  rcases hi with hi | hi
  · exact Bool.noConfusion hi
  · exact hi (h m hm)

theorem not_has_bold_of_light (ms : List LOGFONTW) (h : ∀ m ∈ ms, m.lfWeight < 700) :
    ¬ has_bold 1 ms := by
  rintro ⟨m, hm, hb⟩
  have := h m hm
  rcases hb with hb | ⟨-, hb⟩ | ⟨hb, -⟩ <;> omega

/-- C7: on a non-empty family without italic variant and without a variant of
weight 700 or more, bold alone is reported faked, italic alone is reported
faked, and the combined query reports both as faked. -/
theorem C7_light_upright_family_fakes (P : Platform) (facename : String)
    (characters : List Int)
    (h10 : isLightUpright (enumerated P facename 1 false))
    (h01 : isLightUpright (enumerated P facename 0 true))
    (h11 : isLightUpright (enumerated P facename 1 true)) :
    (GetFontPaths P facename 1 false characters).ret.fake_bold = true ∧
    (GetFontPaths P facename 0 true characters).ret.fake_italic = true ∧
    (GetFontPaths P facename 1 true characters).ret.fake_bold = true ∧
    (GetFontPaths P facename 1 true characters).ret.fake_italic = true := by
  have b10 := not_has_bold_of_light _ (fun m hm => (h10.2 m hm).2)
  have i01 := not_has_italic_of_upright _ (fun m hm => (h01.2 m hm).1)
  have b11 := not_has_bold_of_light _ (fun m hm => (h11.2 m hm).2)
  have i11 := not_has_italic_of_upright _ (fun m hm => (h11.2 m hm).1)
  refine ⟨?_, ?_, ?_, ?_⟩
  · rw [GetFontPaths_fake_bold P facename 1 false characters h10.1]
    simp [b10]
  · rw [GetFontPaths_fake_italic P facename 0 true characters h01.1]
    simp [i01]
  · rw [GetFontPaths_fake_bold P facename 1 true characters h11.1]
    simp [i11, b11]
  · rw [GetFontPaths_fake_italic P facename 1 true characters h11.1]
    simp [i11]

theorem C7_light_upright_family_fakes_witness :
    isLightUpright (enumerated (samplePlatform regularOnly true) "Arial" 1 false) ∧
    (GetFontPaths (samplePlatform regularOnly true) "Arial" 1 false [65]).ret.fake_bold = true ∧
    (GetFontPaths (samplePlatform regularOnly true) "Arial" 0 true [65]).ret.fake_italic = true ∧
    (GetFontPaths (samplePlatform regularOnly true) "Arial" 1 true [65]).ret.fake_bold = true ∧
    (GetFontPaths (samplePlatform regularOnly true) "Arial" 1 true [65]).ret.fake_italic = true :=
  ⟨by decide, C7_light_upright_family_fakes (samplePlatform regularOnly true) "Arial" [65]
    (by decide) (by decide) (by decide)⟩

/-- C9: on a non-empty family no style is reported faked exactly when a single
variant passes both the bold test and the italic test; a plain query (bold 0, no
italic) never reports a faked style. -/
theorem C9_no_fake_iff_exact_variant (P : Platform) (facename : String) (bold : Int)
    (italic : Bool) (characters : List Int)
    (hne : enumerated P facename bold italic ≠ []) :
    (((GetFontPaths P facename bold italic characters).ret.fake_bold = false ∧
        (GetFontPaths P facename bold italic characters).ret.fake_italic = false) ↔
      ∃ m ∈ enumerated P facename bold italic, is_bold_ok bold m ∧ is_italic_ok italic m) ∧
    (bold = 0 → italic = false →
      (GetFontPaths P facename bold italic characters).ret.fake_bold = false ∧
      (GetFontPaths P facename bold italic characters).ret.fake_italic = false) := by
  have key : ((GetFontPaths P facename bold italic characters).ret.fake_bold = false ∧
        (GetFontPaths P facename bold italic characters).ret.fake_italic = false) ↔
      has_bold_italic bold italic (enumerated P facename bold italic) := by
    rw [← Bool.not_eq_true, ← Bool.not_eq_true,
      GetFontPaths_fake_italic P facename bold italic characters hne,
      GetFontPaths_fake_bold P facename bold italic characters hne]
    obtain ⟨m0, hm0⟩ := List.exists_mem_of_ne_nil _ hne
    constructor
    · rintro ⟨hb, hi⟩
      by_cases hq : italic = true ∨ bold ≠ 0
      · have hI : has_italic italic (enumerated P facename bold italic) := by
          by_contra hc
          exact hi ⟨hq, hc⟩
        by_cases hit : italic = true
        · by_contra hc
          exact hb ⟨hq, by rw [if_pos ⟨hit, hI⟩]; exact hc⟩
        · have hB : has_bold bold (enumerated P facename bold italic) := by
            by_contra hc
            exact hb ⟨hq, by rw [if_neg (fun h => hit h.1)]; exact hc⟩
          obtain ⟨m, hm, hmb⟩ := hB
          exact ⟨m, hm, hmb, Or.inl (by simpa using hit)⟩
      · push_neg at hq
        exact ⟨m0, hm0, Or.inl hq.2, Or.inl (by simpa using hq.1)⟩
    · rintro ⟨m, hm, hmb, hmi⟩
      have hI : has_italic italic (enumerated P facename bold italic) := ⟨m, hm, hmi⟩
      have hB : has_bold bold (enumerated P facename bold italic) := ⟨m, hm, hmb⟩
      have hBI : has_bold_italic bold italic (enumerated P facename bold italic) :=
        ⟨m, hm, hmb, hmi⟩
      constructor
      · rintro ⟨-, h⟩
        split_ifs at h
        · exact h hBI
        · exact h hB
      · rintro ⟨-, h⟩
        exact h hI
  refine ⟨key, ?_⟩
  intro hb hi
  rw [key]
  obtain ⟨m0, hm0⟩ := List.exists_mem_of_ne_nil _ hne
  exact ⟨m0, hm0, Or.inl hb, Or.inl hi⟩

theorem C9_no_fake_iff_exact_variant_witness :
    enumerated (samplePlatform regularAndBold true) "Arial" 600 false ≠ [] ∧
    (((GetFontPaths (samplePlatform regularAndBold true) "Arial" 600 false [65]).ret.fake_bold
          = false ∧
        (GetFontPaths (samplePlatform regularAndBold true) "Arial" 600 false [65]).ret.fake_italic
          = false) ↔
      ∃ m ∈ enumerated (samplePlatform regularAndBold true) "Arial" 600 false,
        is_bold_ok 600 m ∧ is_italic_ok false m) :=
  ⟨by decide, (C9_no_fake_iff_exact_variant (samplePlatform regularAndBold true) "Arial" 600
    false [65] (by decide)).1⟩

/-- C10: an explicit weight `b > 1` is compared strictly: when the heaviest
enumerated variant has weight exactly `b`, the upright query with `bold = b`
reports `fake_bold`, although the handle is requested with weight `b`.  For
`b = 700` the query `bold = 1` builds the same request, so it sees the same
family, and reports bold as genuine. -/
theorem C10_explicit_weight_is_strict (P : Platform) (facename : String) (b : Int)
    (characters : List Int) (hb : 1 < b)
    (hmax : ∀ m ∈ enumerated P facename b false, m.lfWeight ≤ b)
    (hatt : ∃ m ∈ enumerated P facename b false, m.lfWeight = b) :
    (GetFontPaths P facename b false characters).ret.fake_bold = true ∧
    (makeLogfont P facename b false).lfWeight = b ∧
    Call.CreateFontIndirect (makeLogfont P facename b false) ∈
      (GetFontPaths P facename b false characters).calls ∧
    (b = 700 →
      makeLogfont P facename 1 false = makeLogfont P facename 700 false ∧
      enumerated P facename 1 false = enumerated P facename 700 false ∧
      (GetFontPaths P facename 1 false characters).ret.fake_bold = false ∧
      (GetFontPaths P facename 700 false characters).ret.fake_bold = true) := by
  obtain ⟨m, hm, hw⟩ := hatt
  have hne : enumerated P facename b false ≠ [] := List.ne_nil_of_mem hm
  have hnb : ¬ has_bold b (enumerated P facename b false) := by
    rintro ⟨c, hc, hcb⟩
    have := hmax c hc
    rcases hcb with h | ⟨h, -⟩ | ⟨-, h⟩ <;> omega
  have h1 : (GetFontPaths P facename b false characters).ret.fake_bold = true := by
    rw [GetFontPaths_fake_bold P facename b false characters hne]
    refine ⟨Or.inr (by omega), ?_⟩
    simp [hnb]
  have hlf : makeLogfont P facename 1 false = makeLogfont P facename 700 false := by
    simp [makeLogfont]
  refine ⟨h1, ?_, ?_, ?_⟩
  · have h0 : b ≠ 0 := by omega
    have h1 : b ≠ 1 := by omega
    simp [makeLogfont, h0, h1]
  · rw [GetFontPaths_of_nonempty P facename b false characters hne]
    obtain ⟨rest, hrest⟩ := locateFile_calls_head P (makeLogfont P facename b false) characters
      (checkStyle {} b false (enumerated P facename b false))
      [Call.EnumFontFamiliesEx (makeLogfont P facename b false)]
    rw [hrest]
    simp
  · intro hb7
    subst hb7
    have henum : enumerated P facename 1 false = enumerated P facename 700 false := by
      unfold enumerated
      rw [hlf]
    refine ⟨hlf, henum, ?_, h1⟩
    rw [← Bool.not_eq_true, GetFontPaths_fake_bold P facename 1 false characters (henum ▸ hne)]
    rintro ⟨-, h⟩
    have hB : has_bold 1 (enumerated P facename 1 false) :=
      ⟨m, henum ▸ hm, Or.inr (Or.inl ⟨rfl, by omega⟩)⟩
    simp [hB] at h

theorem C10_explicit_weight_is_strict_witness :
    (∃ m ∈ enumerated (samplePlatform regularAndBold true) "Arial" 700 false, m.lfWeight = 700) ∧
    (GetFontPaths (samplePlatform regularAndBold true) "Arial" 700 false [65]).ret.fake_bold
      = true ∧
    (GetFontPaths (samplePlatform regularAndBold true) "Arial" 1 false [65]).ret.fake_bold
      = false :=
  have h := C10_explicit_weight_is_strict (samplePlatform regularAndBold true) "Arial" 700 [65]
    (by decide) (by decide) (by decide)
  ⟨by decide, h.1, (h.2.2.2 rfl).2.2.1⟩

/-! ## Properties of `GetFaceNames` -/

theorem Sort_sorted (names : List wxString) :
    (wxArrayString_Sort names).Sorted (fun a b => a ≤ b) :=
  List.sorted_insertionSort _ names

theorem Sort_perm (names : List wxString) : (wxArrayString_Sort names).Perm names :=
  List.perm_insertionSort _ names

theorem nodup_of_sorted_chain (l : List wxString) (h : l.Sorted (fun a b => a ≤ b))
    (hc : l.Chain' (fun a b => a ≠ b)) : l.Nodup := by
  induction l with
  | nil => exact List.nodup_nil
  | cons a t ih =>
    have hs := List.sorted_cons.mp h
    cases t with
    | nil => simp
    | cons b u =>
      have hcc := List.chain'_cons.mp hc
      have hsb := List.sorted_cons.mp hs.2
      refine List.nodup_cons.mpr ⟨?_, ih hs.2 hcc.2⟩
      intro hmem
      rcases List.mem_cons.mp hmem with hab | hau
      · exact hcc.1 hab
      · exact hcc.1 (le_antisymm (hs.1 b (List.mem_cons_self _ _)) (hsb.1 a hau))

theorem chain_ne_iff_nodup (l : List wxString) (h : l.Sorted (fun a b => a ≤ b)) :
    l.Chain' (fun a b => a ≠ b) ↔ l.Nodup :=
  ⟨nodup_of_sorted_chain l h, fun hn => List.Pairwise.chain' hn⟩

theorem Sort_chain_iff (names : List wxString) :
    (wxArrayString_Sort names).Chain' (fun a b => a ≠ b) ↔ names.Nodup := by
  rw [chain_ne_iff_nodup _ (Sort_sorted names)]
  exact (Sort_perm names).nodup_iff

theorem collectFaceNames_ok (E : FontEnv) (f : wxString → wxString) (raw : List wxString)
    (acc : List wxString)
    (hf : ∀ n ∈ raw, GetFaceName true E (makeFont n) = .ok (f n)) :
    collectFaceNames E raw acc = .ok (acc ++ raw.map f) := by
  induction raw generalizing acc with
  | nil => simp [collectFaceNames]
  | cons n rest ih =>
    have hn := hf n (List.mem_cons_self _ _)
    have hrest : ∀ k ∈ rest, GetFaceName true E (makeFont k) = .ok (f k) :=
      fun k hk => hf k (List.mem_cons_of_mem _ hk)
    simp [collectFaceNames, hn, ih _ hrest]

theorem collectFaceNames_error (E : FontEnv) (raw : List wxString) (acc : List wxString)
    (h : ∃ n ∈ raw, ∃ e, GetFaceName true E (makeFont n) = .error e) :
    ∃ e, collectFaceNames E raw acc = .error e := by
  induction raw generalizing acc with
  | nil => simp at h
  | cons n rest ih =>
    rcases hn : GetFaceName true E (makeFont n) with e | s
    · exact ⟨e, by simp [collectFaceNames, hn]⟩
    · obtain ⟨k, hk, e, he⟩ := h
      rcases List.mem_cons.mp hk with rfl | hk
      · rw [hn] at he
        exact Except.noConfusion he
      · obtain ⟨e2, he2⟩ := ih (acc ++ [s]) ⟨k, hk, e, he⟩
        exact ⟨e2, by simp [collectFaceNames, hn, he2]⟩

/-- C8 (as the code has it): `GetFaceNames` sorts and does not remove duplicates.
Without `_WIN32` it returns the raw names sorted; with `_WIN32` it returns the
sorted family names when every `GetFaceName` lookup succeeds, and throws when one
fails.  The returned sequence is sorted and a rearrangement of the names it was
built from; its adjacent entries differ exactly when those names are distinct. -/
theorem C8_face_names_sorted_not_deduplicated (E : FontEnv) :
    (∃ names, GetFaceNames false E = .ok names ∧
      names.Sorted (fun a b => a ≤ b) ∧ names.Perm E.GetFacenames ∧
      (names.Chain' (fun a b => a ≠ b) ↔ E.GetFacenames.Nodup)) ∧
    (∀ f : wxString → wxString,
      (∀ n ∈ E.GetFacenames, GetFaceName true E (makeFont n) = .ok (f n)) →
      ∃ names, GetFaceNames true E = .ok names ∧
        names.Sorted (fun a b => a ≤ b) ∧ names.Perm (E.GetFacenames.map f) ∧
        (names.Chain' (fun a b => a ≠ b) ↔ (E.GetFacenames.map f).Nodup)) ∧
    ((∃ n ∈ E.GetFacenames, ∃ e, GetFaceName true E (makeFont n) = .error e) →
      ∃ e, GetFaceNames true E = .error e) := by
  refine ⟨?_, ?_, ?_⟩
  · exact ⟨wxArrayString_Sort E.GetFacenames, by simp [GetFaceNames], Sort_sorted _,
      Sort_perm _, Sort_chain_iff _⟩
  · intro f hf
    refine ⟨wxArrayString_Sort (E.GetFacenames.map f), ?_, Sort_sorted _, Sort_perm _,
      Sort_chain_iff _⟩
    simp [GetFaceNames, collectFaceNames_ok E f E.GetFacenames [] hf]
  · intro h
    obtain ⟨e, he⟩ := collectFaceNames_error E E.GetFacenames [] h
    exact ⟨e, by simp [GetFaceNames, he]⟩

theorem C8_face_names_sorted_not_deduplicated_witness :
    (∃ names, GetFaceNames true (sampleEnv [[66], [65, 66], [65]] id) = .ok names ∧
      names.Sorted (fun a b => a ≤ b) ∧
      names.Perm ((sampleEnv [[66], [65, 66], [65]] id).GetFacenames.map id) ∧
      (names.Chain' (fun a b => a ≠ b) ↔
        ((sampleEnv [[66], [65, 66], [65]] id).GetFacenames.map id).Nodup)) ∧
    GetFaceNames true (sampleEnv [[66], [65, 66], [65]] id) = .ok [[65], [65, 66], [66]] :=
  ⟨(C8_face_names_sorted_not_deduplicated (sampleEnv [[66], [65, 66], [65]] id)).2.1 id
    (by simp [sampleEnv, GetFaceName, makeFont, readAt, sizeof_wxChar]), rfl⟩

/-- C8 fails as stated: a raw list with a repeated name comes back with two equal
adjacent entries, and on the Windows path two different raw names that resolve
to one family name do too. -/
theorem C8_counterexample :
    GetFaceNames false (sampleEnv [[66], [65], [66]] id) = .ok [[65], [66], [66]] ∧
    ¬ List.Chain' (fun a b => a ≠ b) ([[65], [66], [66]] : List wxString) ∧
    GetFaceNames true (sampleEnv [[66], [65]] (fun _ => [70])) = .ok [[70], [70]] ∧
    ¬ List.Chain' (fun a b => a ≠ b) ([[70], [70]] : List wxString) :=
  ⟨rfl, by simp, rfl, by simp⟩

end Aegisub
